import Mathlib

/-!
Verification of the descriptor-set operations of Plex-Monitr
(Sources/CSelect/select.c). The C file wraps the POSIX fd_set macros:

  void fd_zero(fd_set *set)        \x7b FD_ZERO(&(*set)); \x7d
  void fd_setter(int d, fd_set *set) \x7b FD_SET(d, &(*set)); \x7d
  int  fd_isset(int d, fd_set *set)  \x7b return FD_ISSET(d, set); \x7d
  void fd_clr(int d, fd_set *set)    \x7b FD_CLR(d, &(*set)); \x7d

An fd_set is a fixed array of FD_SETSIZE / NFDBITS machine words
(FD_SETSIZE = 1024, NFDBITS = 64 on the target platform), and the four
macros expand to per-word bit operations:

  FD_ZERO(s)    : every word of s->fds_bits becomes 0
  FD_SET(d, s)  : s->fds_bits[d / NFDBITS] |=  (1UL << (d % NFDBITS))
  FD_ISSET(d,s) : (s->fds_bits[d / NFDBITS] & (1UL << (d % NFDBITS))) != 0
  FD_CLR(d, s)  : s->fds_bits[d / NFDBITS] &= ~(1UL << (d % NFDBITS))

We embed the word array as a list of naturals (each word kept below
2 ^ NFDBITS, the machine-word modulus), mutation as functional update,
and the 64-bit complement ~mask as (2 ^ NFDBITS - 1) ^^^ mask, which
agrees with the machine complement for every mask below 2 ^ NFDBITS.
-/

namespace CSelect

/-- Capacity of a descriptor set on the target platform. -/
def FD_SETSIZE : Nat := 1024

/-- Number of bits in one word of the fds_bits array. -/
def NFDBITS : Nat := 64

/-- Number of words in the fds_bits array. -/
def FDWORDS : Nat := FD_SETSIZE / NFDBITS

/-- The fd_set structure: the fds_bits word array. -/
structure fd_set where
  fds_bits : List Nat
deriving DecidableEq, Repr

/-- Index of the word holding the bit of descriptor d (FD_ELT). -/
def fd_elt (d : Nat) : Nat := d / NFDBITS

/-- Mask selecting the bit of descriptor d inside its word (FD_MASK). -/
def fd_mask (d : Nat) : Nat := 2 ^ (d % NFDBITS)

/-- Embedding of fd_zero: FD_ZERO writes zero into every word of the array. -/
def fd_zero (_s : fd_set) : fd_set :=
  ⟨List.replicate FDWORDS 0⟩

/-- Embedding of fd_setter: FD_SET ors the mask of d into the word of d. -/
def fd_setter (d : Nat) (s : fd_set) : fd_set :=
  ⟨s.fds_bits.set (fd_elt d) (s.fds_bits.getD (fd_elt d) 0 ||| fd_mask d)⟩

/-- Embedding of the fd_isset call as a state transformer: the body
`return FD_ISSET(d, set);` loads one word, tests the bit of d and performs
no store, so the resulting memory state is the input state. -/
def fd_isset_call (d : Nat) (s : fd_set) : Bool × fd_set :=
  ((s.fds_bits.getD (fd_elt d) 0 &&& fd_mask d) != 0, s)

/-- Value returned by fd_isset (nonzero encoded as true). -/
def fd_isset (d : Nat) (s : fd_set) : Bool :=
  (fd_isset_call d s).1

/-- Embedding of fd_clr: FD_CLR ands the word of d with the 64-bit
complement of the mask of d. -/
def fd_clr (d : Nat) (s : fd_set) : fd_set :=
  ⟨s.fds_bits.set (fd_elt d)
    (s.fds_bits.getD (fd_elt d) 0 &&& ((2 ^ NFDBITS - 1) ^^^ fd_mask d))⟩

/-- Well-formedness of an fd_set: the array has exactly FDWORDS words and
each word fits in a machine word. Every fd_set laid out in C memory
satisfies this. -/
def wf (s : fd_set) : Prop :=
  s.fds_bits.length = FDWORDS ∧ ∀ w ∈ s.fds_bits, w < 2 ^ NFDBITS

/-! ## Helper lemmas -/

lemma fd_elt_lt {d : Nat} (hd : d < FD_SETSIZE) : fd_elt d < FDWORDS := by
  simp only [fd_elt, FDWORDS, NFDBITS, FD_SETSIZE] at *
  omega

lemma mod_ne_of_elt_eq {d1 d2 : Nat} (hne : d1 ≠ d2)
    (helt : fd_elt d1 = fd_elt d2) : d1 % NFDBITS ≠ d2 % NFDBITS := by
  simp only [fd_elt, NFDBITS] at *
  omega

lemma and_two_pow_bne (x k : Nat) : ((x &&& 2 ^ k) != 0) = x.testBit k := by
  cases h : x.testBit k with
  | false =>
    have hz : x &&& 2 ^ k = 0 := by
      apply Nat.eq_of_testBit_eq
      intro i
      simp only [Nat.testBit_and, Nat.testBit_two_pow, Nat.zero_testBit]
      by_cases hik : k = i
      · subst hik; simp [h]
      · simp [hik]
    simp [hz]
  | true =>
    have hnz : x &&& 2 ^ k ≠ 0 := by
      intro hz
      have hb := congrArg (fun n => Nat.testBit n k) hz
      simp [h, Nat.testBit_two_pow_self] at hb
    simp [hnz]

lemma fd_isset_eq_testBit (d : Nat) (s : fd_set) :
    fd_isset d s = (s.fds_bits.getD (fd_elt d) 0).testBit (d % NFDBITS) := by
  simp [fd_isset, fd_isset_call, fd_mask, and_two_pow_bne]

lemma getD_set_self {l : List Nat} {i : Nat} (h : i < l.length) (a : Nat) :
    (l.set i a).getD i 0 = a := by
  simp [List.getD_eq_getElem?_getD, List.getElem?_set_self h]

lemma getD_set_ne {l : List Nat} {i j : Nat} (h : i ≠ j) (a : Nat) :
    (l.set i a).getD j 0 = l.getD j 0 := by
  simp [List.getD_eq_getElem?_getD, List.getElem?_set_ne h]

/-! ## Claims -/

/-- Claim C1: for every valid descriptor d and every descriptor set s, after
fd_setter d the call fd_isset d returns true (a nonzero integer). -/
theorem isset_after_setter (d : Nat) (s : fd_set)
    (hd : d < FD_SETSIZE) (hs : s.fds_bits.length = FDWORDS) :
    fd_isset d (fd_setter d s) = true := by
  have hi : fd_elt d < s.fds_bits.length := hs ▸ fd_elt_lt hd
  rw [fd_isset_eq_testBit]
  show ((s.fds_bits.set (fd_elt d)
      (s.fds_bits.getD (fd_elt d) 0 ||| fd_mask d)).getD (fd_elt d) 0).testBit
      (d % NFDBITS) = true
  rw [getD_set_self hi]
  simp [fd_mask, Nat.testBit_two_pow_self]

theorem isset_after_setter_witness :
    (3 < FD_SETSIZE ∧ (fd_set.mk (List.replicate FDWORDS 0)).fds_bits.length = FDWORDS) ∧
      fd_isset 3 (fd_setter 3 ⟨List.replicate FDWORDS 0⟩) = true :=
  ⟨⟨by decide, by decide⟩,
    isset_after_setter 3 ⟨List.replicate FDWORDS 0⟩ (by decide) (by decide)⟩

/-- Claim C2: for every descriptor set s, after fd_zero the call fd_isset d
returns false for every valid descriptor d. -/
theorem isset_after_zero (d : Nat) (s : fd_set) (_hd : d < FD_SETSIZE) :
    fd_isset d (fd_zero s) = false := by
  rw [fd_isset_eq_testBit]
  simp only [fd_zero, List.getD_eq_getElem?_getD, List.getElem?_replicate]
  split <;> simp

theorem isset_after_zero_witness :
    5 < FD_SETSIZE ∧ fd_isset 5 (fd_zero ⟨[7, 7, 7]⟩) = false :=
  ⟨by decide, isset_after_zero 5 ⟨[7, 7, 7]⟩ (by decide)⟩

/-! ## Shared lemmas about fd_clr -/

lemma testBit_clr_self (x k : Nat) (hk : k < NFDBITS) :
    (x &&& ((2 ^ NFDBITS - 1) ^^^ 2 ^ k)).testBit k = false := by
  simp [Nat.testBit_two_pow_self, hk]

lemma isset_clr_false (d : Nat) (s : fd_set)
    (hd : d < FD_SETSIZE) (hs : s.fds_bits.length = FDWORDS) :
    fd_isset d (fd_clr d s) = false := by
  have hi : fd_elt d < s.fds_bits.length := hs ▸ fd_elt_lt hd
  rw [fd_isset_eq_testBit]
  show ((s.fds_bits.set (fd_elt d)
      (s.fds_bits.getD (fd_elt d) 0 &&& ((2 ^ NFDBITS - 1) ^^^ fd_mask d))).getD
      (fd_elt d) 0).testBit (d % NFDBITS) = false
  rw [getD_set_self hi]
  exact testBit_clr_self _ _ (Nat.mod_lt _ (by decide))

/-- Claim C3: for every valid descriptor d and every descriptor set s, after
fd_setter d followed by fd_clr d, fd_isset d returns false. -/
theorem isset_after_setter_clr (d : Nat) (s : fd_set)
    (hd : d < FD_SETSIZE) (hs : s.fds_bits.length = FDWORDS) :
    fd_isset d (fd_clr d (fd_setter d s)) = false :=
  isset_clr_false d (fd_setter d s) hd (by simp [fd_setter, hs])

theorem isset_after_setter_clr_witness :
    (9 < FD_SETSIZE ∧ (fd_set.mk (List.replicate FDWORDS 5)).fds_bits.length = FDWORDS) ∧
      fd_isset 9 (fd_clr 9 (fd_setter 9 ⟨List.replicate FDWORDS 5⟩)) = false :=
  ⟨⟨by decide, by decide⟩,
    isset_after_setter_clr 9 ⟨List.replicate FDWORDS 5⟩ (by decide) (by decide)⟩

/-- Claim C4: for distinct valid descriptors d1 and d2, fd_setter d1 does not
change the value fd_isset d2 returns. -/
theorem isset_unchanged_by_setter_other (d1 d2 : Nat) (s : fd_set)
    (h1 : d1 < FD_SETSIZE) (_h2 : d2 < FD_SETSIZE) (hne : d1 ≠ d2)
    (hs : s.fds_bits.length = FDWORDS) :
    fd_isset d2 (fd_setter d1 s) = fd_isset d2 s := by
  rw [fd_isset_eq_testBit, fd_isset_eq_testBit]
  show ((s.fds_bits.set (fd_elt d1)
      (s.fds_bits.getD (fd_elt d1) 0 ||| fd_mask d1)).getD (fd_elt d2) 0).testBit
      (d2 % NFDBITS) = _
  by_cases helt : fd_elt d1 = fd_elt d2
  · have hi : fd_elt d2 < s.fds_bits.length := by
      rw [hs, ← helt]; exact fd_elt_lt h1
    have hk := mod_ne_of_elt_eq hne helt
    rw [helt, getD_set_self hi]
    simp [fd_mask, Nat.testBit_two_pow_of_ne hk]
  · rw [getD_set_ne helt]

theorem isset_unchanged_by_setter_other_witness :
    (3 < FD_SETSIZE ∧ 67 < FD_SETSIZE ∧ (3 : Nat) ≠ 67 ∧
        (fd_set.mk (List.replicate FDWORDS 0)).fds_bits.length = FDWORDS) ∧
      fd_isset 67 (fd_setter 3 ⟨List.replicate FDWORDS 0⟩) =
        fd_isset 67 ⟨List.replicate FDWORDS 0⟩ :=
  ⟨⟨by decide, by decide, by decide, by decide⟩,
    isset_unchanged_by_setter_other 3 67 ⟨List.replicate FDWORDS 0⟩
      (by decide) (by decide) (by decide) (by decide)⟩

/-- Claim C5: fd_setter twice leaves the set in the same state as once;
likewise fd_clr twice equals fd_clr once and fd_zero twice equals fd_zero
once. -/
theorem ops_idempotent (d : Nat) (s : fd_set)
    (hd : d < FD_SETSIZE) (hs : s.fds_bits.length = FDWORDS) :
    fd_setter d (fd_setter d s) = fd_setter d s ∧
    fd_clr d (fd_clr d s) = fd_clr d s ∧
    fd_zero (fd_zero s) = fd_zero s := by
  have hi : fd_elt d < s.fds_bits.length := hs ▸ fd_elt_lt hd
  refine ⟨?_, ?_, rfl⟩
  · simp only [fd_setter, fd_set.mk.injEq]
    rw [getD_set_self hi, Nat.or_assoc, Nat.or_self]
    exact List.set_set ..
  · simp only [fd_clr, fd_set.mk.injEq]
    rw [getD_set_self hi, Nat.and_assoc, Nat.and_self]
    exact List.set_set ..

theorem ops_idempotent_witness :
    (70 < FD_SETSIZE ∧ (fd_set.mk (List.replicate FDWORDS 3)).fds_bits.length = FDWORDS) ∧
      (fd_setter 70 (fd_setter 70 ⟨List.replicate FDWORDS 3⟩) =
          fd_setter 70 ⟨List.replicate FDWORDS 3⟩ ∧
        fd_clr 70 (fd_clr 70 ⟨List.replicate FDWORDS 3⟩) =
          fd_clr 70 ⟨List.replicate FDWORDS 3⟩ ∧
        fd_zero (fd_zero ⟨List.replicate FDWORDS 3⟩) =
          fd_zero ⟨List.replicate FDWORDS 3⟩) :=
  ⟨⟨by decide, by decide⟩,
    ops_idempotent 70 ⟨List.replicate FDWORDS 3⟩ (by decide) (by decide)⟩

/-- Claim C6: for every valid descriptor d and every descriptor set s,
whether or not d was present, after fd_clr d the call fd_isset d returns
false. -/
theorem isset_after_clr (d : Nat) (s : fd_set)
    (hd : d < FD_SETSIZE) (hs : s.fds_bits.length = FDWORDS) :
    fd_isset d (fd_clr d s) = false :=
  isset_clr_false d s hd hs

theorem isset_after_clr_witness :
    (100 < FD_SETSIZE ∧ (fd_set.mk (List.replicate FDWORDS 9)).fds_bits.length = FDWORDS) ∧
      fd_isset 100 (fd_clr 100 ⟨List.replicate FDWORDS 9⟩) = false :=
  ⟨⟨by decide, by decide⟩,
    isset_after_clr 100 ⟨List.replicate FDWORDS 9⟩ (by decide) (by decide)⟩

/-- Claim C7: fd_isset is side-effect free: the memory state it leaves
behind is the state it was given. -/
theorem isset_no_mutation (d : Nat) (s : fd_set) : (fd_isset_call d s).2 = s :=
  rfl

/-- Claim C8: scenario from the spec: starting from a cleared set, adding 3
marks 3 and not 4; adding 4 marks both; removing 3 leaves only 4; a final
clear leaves neither. -/
theorem scenario (s : fd_set) :
    fd_isset 3 (fd_setter 3 (fd_zero s)) = true ∧
    fd_isset 4 (fd_setter 3 (fd_zero s)) = false ∧
    fd_isset 3 (fd_setter 4 (fd_setter 3 (fd_zero s))) = true ∧
    fd_isset 4 (fd_setter 4 (fd_setter 3 (fd_zero s))) = true ∧
    fd_isset 3 (fd_clr 3 (fd_setter 4 (fd_setter 3 (fd_zero s)))) = false ∧
    fd_isset 4 (fd_clr 3 (fd_setter 4 (fd_setter 3 (fd_zero s)))) = true ∧
    fd_isset 3 (fd_zero (fd_clr 3 (fd_setter 4 (fd_setter 3 (fd_zero s))))) = false ∧
    fd_isset 4 (fd_zero (fd_clr 3 (fd_setter 4 (fd_setter 3 (fd_zero s))))) = false := by
  simp only [fd_zero]
  decide

/-- Claim C9: under the validity precondition the operations touch only the
fixed capacity of the set: the word index of d is inside the fds_bits
array, the mask of d fits in one machine word, well-formedness (exact array
length and machine-word bounds) is preserved by fd_setter, fd_clr and the
fd_isset call, and fd_zero always produces a well-formed set. The embedded
operations are plain total functions with no error result. -/
theorem ops_safe (d : Nat) (s : fd_set)
    (hd : d < FD_SETSIZE) (hs : wf s) :
    fd_elt d < FDWORDS ∧ fd_mask d < 2 ^ NFDBITS ∧
    wf (fd_setter d s) ∧ wf (fd_clr d s) ∧
    wf (fd_isset_call d s).2 ∧ wf (fd_zero s) := by
  obtain ⟨hlen, hbnd⟩ := hs
  have hi : fd_elt d < s.fds_bits.length := hlen ▸ fd_elt_lt hd
  have hmask : fd_mask d < 2 ^ NFDBITS :=
    Nat.pow_lt_pow_of_lt (by decide) (Nat.mod_lt _ (by decide))
  have hxmem : s.fds_bits.getD (fd_elt d) 0 ∈ s.fds_bits := by
    simp only [List.getD_eq_getElem?_getD, List.getElem?_eq_getElem hi,
      Option.getD_some]
    exact List.getElem_mem hi
  have hxlt : s.fds_bits.getD (fd_elt d) 0 < 2 ^ NFDBITS := hbnd _ hxmem
  refine ⟨fd_elt_lt hd, hmask, ⟨?_, ?_⟩, ⟨?_, ?_⟩, ⟨hlen, hbnd⟩, ⟨?_, ?_⟩⟩
  · simp [fd_setter, hlen]
  · intro w hw
    rcases List.mem_or_eq_of_mem_set hw with h | h
    · exact hbnd _ h
    · rw [h]; exact Nat.or_lt_two_pow hxlt hmask
  · simp [fd_clr, hlen]
  · intro w hw
    rcases List.mem_or_eq_of_mem_set hw with h | h
    · exact hbnd _ h
    · rw [h]; exact Nat.lt_of_le_of_lt Nat.and_le_left hxlt
  · simp [fd_zero]
  · intro w hw
    rw [List.eq_of_mem_replicate hw]
    exact Nat.two_pow_pos NFDBITS

theorem ops_safe_witness :
    (1023 < FD_SETSIZE ∧ wf (fd_set.mk (List.replicate FDWORDS 1))) ∧
      (fd_elt 1023 < FDWORDS ∧ fd_mask 1023 < 2 ^ NFDBITS ∧
        wf (fd_setter 1023 ⟨List.replicate FDWORDS 1⟩) ∧
        wf (fd_clr 1023 ⟨List.replicate FDWORDS 1⟩) ∧
        wf (fd_isset_call 1023 ⟨List.replicate FDWORDS 1⟩).2 ∧
        wf (fd_zero ⟨List.replicate FDWORDS 1⟩)) :=
  ⟨⟨by decide, by decide, by decide⟩,
    ops_safe 1023 ⟨List.replicate FDWORDS 1⟩ (by decide) ⟨by decide, by decide⟩⟩

/-! ## Shared lemmas for commutation -/

lemma word_set_clr_comm (x : Nat) {d1 d2 : Nat}
    (hne : d1 % NFDBITS ≠ d2 % NFDBITS) :
    (x ||| fd_mask d1) &&& ((2 ^ NFDBITS - 1) ^^^ fd_mask d2)
      = (x &&& ((2 ^ NFDBITS - 1) ^^^ fd_mask d2)) ||| fd_mask d1 := by
  have hk1 : d1 % NFDBITS < NFDBITS := Nat.mod_lt _ (by decide)
  apply Nat.eq_of_testBit_eq
  intro j
  simp only [fd_mask, Nat.testBit_and, Nat.testBit_or, Nat.testBit_xor,
    Nat.testBit_two_pow_sub_one, Nat.testBit_two_pow]
  by_cases hj : d1 % NFDBITS = j
  · subst hj
    simp [hk1, Ne.symm hne]
  · simp [hj]

lemma set_upd_comm {l : List Nat} {i1 i2 : Nat} (h1 : i1 < l.length)
    (f g : Nat → Nat) (hfg : i1 = i2 → ∀ x, g (f x) = f (g x)) :
    (l.set i1 (f (l.getD i1 0))).set i2
        (g ((l.set i1 (f (l.getD i1 0))).getD i2 0))
      = (l.set i2 (g (l.getD i2 0))).set i1
          (f ((l.set i2 (g (l.getD i2 0))).getD i1 0)) := by
  by_cases hi : i1 = i2
  · subst hi
    rw [getD_set_self h1, getD_set_self h1, List.set_set, List.set_set, hfg rfl]
  · rw [getD_set_ne hi, getD_set_ne (Ne.symm hi)]
    exact List.set_comm _ _ _ hi

/-- Claim C10: fd_setter calls for two valid descriptors commute, fd_clr
calls for two valid descriptors commute, and for distinct valid descriptors
an fd_setter call commutes with an fd_clr call. -/
theorem ops_commute (d1 d2 : Nat) (s : fd_set)
    (h1 : d1 < FD_SETSIZE) (_h2 : d2 < FD_SETSIZE)
    (hs : s.fds_bits.length = FDWORDS) :
    fd_setter d2 (fd_setter d1 s) = fd_setter d1 (fd_setter d2 s) ∧
    fd_clr d2 (fd_clr d1 s) = fd_clr d1 (fd_clr d2 s) ∧
    (d1 ≠ d2 → fd_clr d2 (fd_setter d1 s) = fd_setter d1 (fd_clr d2 s)) := by
  have hi1 : fd_elt d1 < s.fds_bits.length := hs ▸ fd_elt_lt h1
  refine ⟨?_, ?_, fun hne => ?_⟩
  · exact congrArg fd_set.mk
      (set_upd_comm hi1 (· ||| fd_mask d1) (· ||| fd_mask d2)
        (fun _ x => by
          show x ||| fd_mask d1 ||| fd_mask d2 = x ||| fd_mask d2 ||| fd_mask d1
          rw [Nat.or_assoc, Nat.or_comm (fd_mask d1), ← Nat.or_assoc]))
  · exact congrArg fd_set.mk
      (set_upd_comm hi1 (· &&& ((2 ^ NFDBITS - 1) ^^^ fd_mask d1))
        (· &&& ((2 ^ NFDBITS - 1) ^^^ fd_mask d2))
        (fun _ x => by
          show x &&& ((2 ^ NFDBITS - 1) ^^^ fd_mask d1) &&&
              ((2 ^ NFDBITS - 1) ^^^ fd_mask d2)
            = x &&& ((2 ^ NFDBITS - 1) ^^^ fd_mask d2) &&&
                ((2 ^ NFDBITS - 1) ^^^ fd_mask d1)
          rw [Nat.and_assoc,
            Nat.and_comm ((2 ^ NFDBITS - 1) ^^^ fd_mask d1), ← Nat.and_assoc]))
  · exact congrArg fd_set.mk
      (set_upd_comm hi1 (· ||| fd_mask d1)
        (· &&& ((2 ^ NFDBITS - 1) ^^^ fd_mask d2))
        (fun helt x => word_set_clr_comm x (mod_ne_of_elt_eq hne helt)))

theorem ops_commute_witness :
    (2 < FD_SETSIZE ∧ 130 < FD_SETSIZE ∧
        (fd_set.mk (List.replicate FDWORDS 6)).fds_bits.length = FDWORDS) ∧
      (fd_setter 130 (fd_setter 2 ⟨List.replicate FDWORDS 6⟩) =
          fd_setter 2 (fd_setter 130 ⟨List.replicate FDWORDS 6⟩) ∧
        fd_clr 130 (fd_clr 2 ⟨List.replicate FDWORDS 6⟩) =
          fd_clr 2 (fd_clr 130 ⟨List.replicate FDWORDS 6⟩) ∧
        ((2 : Nat) ≠ 130 →
          fd_clr 130 (fd_setter 2 ⟨List.replicate FDWORDS 6⟩) =
            fd_setter 2 (fd_clr 130 ⟨List.replicate FDWORDS 6⟩))) :=
  ⟨⟨by decide, by decide, by decide⟩,
    ops_commute 2 130 ⟨List.replicate FDWORDS 6⟩ (by decide) (by decide) (by decide)⟩

end CSelect
